import Mathlib

/-!
# Verification of the Forge route-derivation and middleware-dispatch core

This development embeds the convention-based route-derivation mechanism of the
Forge web framework (`pkg/forge/app.go`, `pkg/forge/controller.go`) and proves
properties of it.

Go strings are iterated as sequences of runes; we embed them as `List Char`.
All inputs appearing in the routing convention are ASCII, and on ASCII the
core helpers below coincide exactly with Go's `strings`/`unicode` functions.

Go handlers (`func(*Context) error`) mutate the request context and return an
optional error; we model them as state transformers `Ctx → Ctx × Option Err`,
so "same behavior" means same final context state and same returned error.
-/

namespace Forge

/-- Go strings.TrimPrefix s pre: drop `pre` from the front of `s` when it is a
prefix, otherwise return `s` unchanged. -/
def trimPrefix (s pre : List Char) : List Char :=
  if pre.isPrefixOf s then s.drop pre.length else s

/-- Go strings.TrimSuffix s suffix: drop `suffix` from the end of `s` when it
is a suffix, otherwise return `s` unchanged. -/
def trimSuffix (s suffix : List Char) : List Char :=
  if suffix.isSuffixOf s then s.take (s.length - suffix.length) else s

/-- Go strings.Contains s substr: `substr` occurs as a contiguous substring of
`s`. -/
def containsStr (s substr : List Char) : Bool :=
  match s with
  | [] => substr.isPrefixOf []
  | c :: rest => substr.isPrefixOf (c :: rest) || containsStr rest substr

/-- Go strings.ToUpper, which maps `unicode.ToUpper` over the runes; on the
ASCII inputs of the routing convention this is `Char.toUpper` pointwise. -/
def toUpperStr (s : List Char) : List Char := s.map Char.toUpper

/-- Go strings.ToLower, pointwise `unicode.ToLower`; on ASCII this is
`Char.toLower` pointwise. -/
def toLowerStr (s : List Char) : List Char := s.map Char.toLower

/-- RouteInfo from app.go: the derived HTTP method and URL path. -/
structure RouteInfo where
  HTTPMethod : List Char
  Path : List Char
deriving Repr, DecidableEq

/-- The HTTP-method tokens scanned for in app.go line 305, in source order:
`Get, Post, Put, Delete, Patch, Options, Head`. -/
def goMethodTokens : List (List Char) :=
  ["Get".data, "Post".data, "Put".data, "Delete".data, "Patch".data,
   "Options".data, "Head".data]

/-- The token-scanning loop of `parseRouteFromMethodName` (app.go 302-311):
`httpMethod` starts as "GET"; the first token that is a prefix of the action
name is uppercased and stripped, then the loop breaks. -/
def pickMethod : List (List Char) → List Char → List Char × List Char
  | [], actionName => ("GET".data, actionName)
  | tok :: rest, actionName =>
    if tok.isPrefixOf actionName then (toUpperStr tok, trimPrefix actionName tok)
    else pickMethod rest actionName

/-- The camel-case-to-path loop of `parseRouteFromMethodName` (app.go
316-322): a hyphen is written before every rune in the ASCII range 'A'-'Z'
whose index is positive, and every rune is written lowercased.  (Go's index
`i` is a byte offset, but `i > 0` holds exactly for the non-first rune, which
is what the `Nat` index models.) -/
def camelToPathAux : Nat → List Char → List Char
  | _, [] => []
  | i, r :: rest =>
    (if 0 < i ∧ 'A' ≤ r ∧ r ≤ 'Z' then ['-', r.toLower] else [r.toLower]) ++
      camelToPathAux (i + 1) rest

/-- The whole camel-case conversion, started at index 0. -/
def camelToPath (actionName : List Char) : List Char := camelToPathAux 0 actionName

/-- parseRouteFromMethodName (app.go 297-352): strip the "Handle" marker,
scan for an HTTP-method token, convert the remaining action name to a
hyphenated lowercase path segment, and apply the `index`/empty and `by-id`
special cases. -/
def parseRouteFromMethodName (methodName basePath : List Char) : RouteInfo :=
  let actionName := trimPrefix methodName "Handle".data
  let picked := pickMethod goMethodTokens actionName
  let httpMethod := picked.1
  let actionName := picked.2
  if actionName ≠ [] then
    let actionPath := camelToPath actionName
    if actionPath = "index".data ∨ actionPath = [] then
      ⟨httpMethod, basePath⟩
    else if containsStr actionPath "by-id".data then
      ⟨httpMethod, basePath ++ "/:id".data⟩
    else
      ⟨httpMethod, basePath ++ "/".data ++ actionPath⟩
  else
    ⟨httpMethod, basePath⟩

/-- The base-path derivation inlined in `RegisterController` (app.go
248-254): trim the "Controller" suffix from the controller's type name,
lowercase it, and prepend "/". -/
def controllerBasePath (controllerName : List Char) : List Char :=
  "/".data ++ toLowerStr (trimSuffix controllerName "Controller".data)

/-- Stated from the specification's wording, for comparison with the code's
conversion loop: a hyphen is inserted before each internal uppercase letter
(every uppercase letter except at the first position), then everything is
lowercased. -/
def specHyphenate (action : List Char) : List Char :=
  match action with
  | [] => []
  | c :: rest =>
    toLowerStr (c :: rest.flatMap fun r => if r.isUpper then ['-', r] else [r])

/-- Stated from the specification's wording: the expected path for an action
substring is basePath + "/" + the hyphenated, lowercased action, except that
a hyphenation equal to "index" or empty yields the base path alone and a
hyphenation containing the substring "by-id" yields basePath + "/:id". -/
def specExpectedPath (action basePath : List Char) : List Char :=
  if specHyphenate action = "index".data ∨ specHyphenate action = [] then basePath
  else if "by-id".data <:+: specHyphenate action then basePath ++ "/:id".data
  else basePath ++ "/".data ++ specHyphenate action

/-- Stated from the specification's wording: the first token in the fixed
priority order Get, Post, Put, Delete, Patch, Options, Head whose text
prefixes the name remainder determines the (uppercased) HTTP method; when
none matches, the method defaults to "GET". -/
def specHttpMethod (rest : List Char) : List Char :=
  match ["Get".data, "Post".data, "Put".data, "Delete".data, "Patch".data,
      "Options".data, "Head".data].find? (fun t => t.isPrefixOf rest) with
  | some t => toUpperStr t
  | none => "GET".data

/-- controller.go HandlerFunc: a Go handler takes the request context and
returns an error; contexts are mutated through a pointer, so we model a
handler as a state transformer returning the new context state together with
the optional error. -/
def HandlerFunc (Ctx Err : Type) : Type := Ctx → Ctx × Option Err

/-- controller.go MiddlewareFunc: a transformation from the next handler to a
wrapping handler. -/
def MiddlewareFunc (Ctx Err : Type) : Type := HandlerFunc Ctx Err → HandlerFunc Ctx Err

/-- Controller.Use (controller.go 27-29): appends wrappers to the
controller's middleware slice. -/
def Use {Ctx Err : Type} (middleware more : List (MiddlewareFunc Ctx Err)) :
    List (MiddlewareFunc Ctx Err) :=
  middleware ++ more

/-- The chain-building loop of Controller.registerRoute (controller.go
67-71): starting from the terminal handler, the wrappers are applied in
reverse registration order (index len-1 down to 0). -/
def buildChain {Ctx Err : Type} (middleware : List (MiddlewareFunc Ctx Err))
    (finalHandler : HandlerFunc Ctx Err) : HandlerFunc Ctx Err :=
  middleware.reverse.foldl (fun chain m => m chain) finalHandler

/-- The bound handler closure of Controller.registerRoute (controller.go
55-77): when middleware is registered the built chain is invoked on the
context, otherwise the terminal handler is invoked directly. -/
def boundHandler {Ctx Err : Type} (middleware : List (MiddlewareFunc Ctx Err))
    (finalHandler : HandlerFunc Ctx Err) : HandlerFunc Ctx Err :=
  fun forgeCtx =>
    if 0 < middleware.length then buildChain middleware finalHandler forgeCtx
    else finalHandler forgeCtx

/-- createHandlerFunc (app.go 355-366): wraps the reflective call to the
operation; a non-nil error result is returned as-is, otherwise nil is
returned. -/
def createHandlerFunc {Ctx Err : Type} (op : HandlerFunc Ctx Err) : HandlerFunc Ctx Err :=
  fun c =>
    match op c with
    | (c2, some err) => (c2, some err)
    | (c2, none) => (c2, none)

/-- The HTTP methods accepted by the registration switch (app.go 271-286);
a RouteInfo whose method is not in this list is not registered. -/
def fiberMethods : List (List Char) :=
  ["GET".data, "POST".data, "PUT".data, "DELETE".data, "PATCH".data,
   "OPTIONS".data, "HEAD".data]

/-- One binding handed to the external router. -/
structure RegisteredRoute (Ctx Err : Type) where
  route : RouteInfo
  handler : HandlerFunc Ctx Err

/-- Application.RegisterController (app.go 238-288), as the list of route
bindings it installs.  A controller is presented as its type name, its
enumerated methods (name and callable) and its middleware slice.  The loop
skips every method whose name does not begin with "Handle", derives the route
from the method name and the type-derived base path, and installs
`createHandlerFunc` of the callable through the method switch.  The
controller's middleware slice is received but never consulted, mirroring
app.go, which builds the handler with createHandlerFunc alone. -/
def RegisterController {Ctx Err : Type} (controllerName : List Char)
    (methods : List (List Char × HandlerFunc Ctx Err))
    (middleware : List (MiddlewareFunc Ctx Err)) :
    List (RegisteredRoute Ctx Err) :=
  let basePath := controllerBasePath controllerName
  methods.filterMap fun m =>
    if "Handle".data.isPrefixOf m.1 then
      let routeInfo := parseRouteFromMethodName m.1 basePath
      if routeInfo.HTTPMethod ∈ fiberMethods then
        some ⟨routeInfo, createHandlerFunc m.2⟩
      else none
    else none

/-- A sample operation for concrete evaluations: increments the context
counter and returns nil error. -/
def opEcho : HandlerFunc Nat Nat := fun c => (c + 1, none)

/-- A sample middleware for concrete evaluations: invokes the inner handler,
then replaces the returned error with error code 7. -/
def mwSetErr : MiddlewareFunc Nat Nat := fun next => fun c => ((next c).1, some 7)

/-! ## Helper lemmas about the string primitives -/

theorem isPrefixOf_append_self (t r : List Char) : t.isPrefixOf (t ++ r) = true := by
  induction t with
  | nil => simp
  | cons c cs ih => simp [List.isPrefixOf_cons₂, ih]

theorem isPrefixOf_cons_of_ne {a b : Char} (h : a ≠ b) (as bs : List Char) :
    (a :: as).isPrefixOf (b :: bs) = false := by
  simp [List.isPrefixOf_cons₂, h]

theorem trimPrefix_append (p r : List Char) : trimPrefix (p ++ r) p = r := by
  simp [trimPrefix, isPrefixOf_append_self, List.drop_left]

theorem trimSuffix_append (r s : List Char) : trimSuffix (r ++ s) s = r := by
  have hsuf : s.isSuffixOf (r ++ s) = true := by
    simp [List.isSuffixOf, List.reverse_append, isPrefixOf_append_self]
  have hlen : (r ++ s).length - s.length = r.length := by
    simp [List.length_append]
  rw [trimSuffix, if_pos hsuf, hlen, List.take_left]

theorem char_le_iff {a b : Char} : a ≤ b ↔ a.toNat ≤ b.toNat := by
  rw [Char.le_def, UInt32.le_def, BitVec.le_def]
  rfl

theorem char_toNat_ofNat {n : Nat} (h : Nat.isValidChar n) :
    (Char.ofNat n).toNat = n := by
  rw [Char.ofNat, dif_pos h]
  rfl

/-- `Char.toLower` never produces an ASCII uppercase letter. -/
theorem toLower_not_upper (c : Char) : ¬('A' ≤ c.toLower ∧ c.toLower ≤ 'Z') := by
  have hA : 'A'.toNat = 65 := rfl
  have hZ : 'Z'.toNat = 90 := rfl
  rw [char_le_iff, char_le_iff, hA, hZ]
  by_cases h : c.toNat ≥ 65 ∧ c.toNat ≤ 90
  · have hv : Nat.isValidChar (c.toNat + 32) := Or.inl (by omega)
    rw [Char.toLower, if_pos h, char_toNat_ofNat hv]
    omega
  · rw [Char.toLower, if_neg h]
    omega

theorem upper_iff (c : Char) : ('A' ≤ c ∧ c ≤ 'Z') ↔ c.isUpper = true := by
  rw [Char.le_def, Char.le_def, Char.isUpper]
  have h1 : 'A'.val = 65 := rfl
  have h2 : 'Z'.val = 90 := rfl
  rw [h1, h2]
  simp [ge_iff_le]

/-- containsStr agrees with the mathematical substring relation. -/
theorem containsStr_iff (s substr : List Char) :
    containsStr s substr = true ↔ substr <:+: s := by
  induction s with
  | nil =>
    cases substr with
    | nil => simp [containsStr]
    | cons a as => simp [containsStr, List.infix_nil]
  | cons c rest ih =>
    simp only [containsStr, Bool.or_eq_true, List.isPrefixOf_iff_prefix, ih]
    constructor
    · rintro (h | h)
      · exact h.isInfix
      · obtain ⟨pre, post, heq⟩ := h
        refine ⟨c :: pre, post, ?_⟩
        simp only [List.cons_append]
        rw [heq]
    · rintro ⟨pre, post, heq⟩
      cases pre with
      | nil => exact Or.inl ⟨post, by simpa using heq⟩
      | cons p ps =>
        simp only [List.cons_append] at heq
        injection heq with h1 h2
        exact Or.inr ⟨ps, post, h2⟩

/-! ## The camel-case conversion, characterized the way the spec words it -/

theorem camelToPathAux_pos (i j : Nat) (l : List Char) (hi : 0 < i) (hj : 0 < j) :
    camelToPathAux i l = camelToPathAux j l := by
  induction l generalizing i j with
  | nil => rfl
  | cons c rest ih =>
    simp only [camelToPathAux, hi, hj, true_and, ih (i + 1) (j + 1) (by omega) (by omega)]

theorem camelToPathAux_one_eq (l : List Char) :
    camelToPathAux 1 l =
      toLowerStr (l.flatMap fun r => if r.isUpper then ['-', r] else [r]) := by
  induction l with
  | nil => rfl
  | cons c rest ih =>
    rw [camelToPathAux, camelToPathAux_pos 2 1 rest (by omega) (by omega), ih]
    by_cases h : 'A' ≤ c ∧ c ≤ 'Z'
    · have hu : c.isUpper = true := (upper_iff c).mp h
      simp [h, hu, toLowerStr]
    · have hu : c.isUpper = false :=
        Bool.eq_false_iff.mpr (fun hb => h ((upper_iff c).mpr hb))
      simp [h, hu, toLowerStr]

/-- The code's conversion loop computes exactly the hyphenation the spec
describes. -/
theorem camelToPath_eq_specHyphenate (l : List Char) :
    camelToPath l = specHyphenate l := by
  cases l with
  | nil => rfl
  | cons c rest =>
    rw [camelToPath, camelToPathAux,
      camelToPathAux_pos 1 1 rest (by omega) (by omega), camelToPathAux_one_eq,
      specHyphenate]
    simp [toLowerStr]

/-- The conversion of a non-empty action name is non-empty. -/
theorem camelToPath_ne_nil (c : Char) (rest : List Char) :
    camelToPath (c :: rest) ≠ [] := by
  simp [camelToPath, camelToPathAux]

/-- No character of the conversion's output is an ASCII uppercase letter. -/
theorem camelToPathAux_no_upper (l : List Char) (i : Nat) (c : Char)
    (hc : c ∈ camelToPathAux i l) : ¬('A' ≤ c ∧ c ≤ 'Z') := by
  induction l generalizing i with
  | nil => simp [camelToPathAux] at hc
  | cons r rest ih =>
    rw [camelToPathAux] at hc
    rcases List.mem_append.mp hc with h | h
    · by_cases hcond : 0 < i ∧ 'A' ≤ r ∧ r ≤ 'Z'
      · rw [if_pos hcond] at h
        rcases List.mem_cons.mp h with rfl | h2
        · decide
        · rcases List.mem_singleton.mp h2 with rfl
          exact toLower_not_upper r
      · rw [if_neg hcond] at h
        rcases List.mem_singleton.mp h with rfl
        exact toLower_not_upper r
    · exact ih (i + 1) h

/-! ## The token-scanning loop -/

theorem pickMethod_fst_eq_find (ts : List (List Char)) (rest : List Char) :
    (pickMethod ts rest).1 =
      match ts.find? (fun t => t.isPrefixOf rest) with
      | some t => toUpperStr t
      | none => "GET".data := by
  induction ts with
  | nil => rfl
  | cons t ts ih =>
    by_cases h : t.isPrefixOf rest = true
    · simp [pickMethod, h, List.find?]
    · have h' : t.isPrefixOf rest = false := Bool.eq_false_iff.mpr h
      simp [pickMethod, h', List.find?, ih]

/-- On a token followed by an arbitrary action, the scan selects exactly that
token: no other token in the list can match, because no token of the Go
source is a prefix of another. -/
theorem pickMethod_token (tok action : List Char) (htok : tok ∈ goMethodTokens) :
    pickMethod goMethodTokens (tok ++ action) = (toUpperStr tok, action) := by
  fin_cases htok <;>
    simp [goMethodTokens, pickMethod, isPrefixOf_append_self, trimPrefix,
      List.isPrefixOf_cons₂, List.isPrefixOf_cons₂_self]

/-- The HTTP method returned by the parser is, in every branch, the one
computed by the token scan. -/
theorem parse_httpMethod_eq (methodName basePath : List Char) :
    (parseRouteFromMethodName methodName basePath).HTTPMethod =
      (pickMethod goMethodTokens (trimPrefix methodName "Handle".data)).1 := by
  simp only [parseRouteFromMethodName]
  split
  · split
    · rfl
    · split <;> rfl
  · rfl

/-- Case analysis of the parsed path: either the base path, the base path
with ":id", or the base path extended by the non-empty hyphenated segment,
which contains no ASCII uppercase letter. -/
theorem parse_path_cases (methodName basePath : List Char) :
    (parseRouteFromMethodName methodName basePath).Path = basePath ∨
    (parseRouteFromMethodName methodName basePath).Path = basePath ++ "/:id".data ∨
    ∃ seg : List Char, seg ≠ [] ∧ (∀ c ∈ seg, ¬('A' ≤ c ∧ c ≤ 'Z')) ∧
      (parseRouteFromMethodName methodName basePath).Path =
        basePath ++ "/".data ++ seg := by
  simp only [parseRouteFromMethodName]
  split
  · split
    · exact Or.inl rfl
    · next h1 =>
      split
      · exact Or.inr (Or.inl rfl)
      · refine Or.inr (Or.inr ⟨camelToPath _, ?_, ?_, rfl⟩)
        · intro hnil
          exact h1 (Or.inr hnil)
        · intro c hc
          exact camelToPathAux_no_upper _ 0 c hc
  · exact Or.inl rfl

/-! ## Claim theorems -/

/-- C1: for every operation name of the form "Handle" + known HTTP-method
token + camelCase action and every base path, the parsed path equals
basePath + "/" + the hyphenated, lowercased action, except that a hyphenated
action equal to "index" or empty yields exactly the base path and a
hyphenated action containing "by-id" yields basePath + "/:id". -/
theorem parseRoute_path_spec (tok action basePath : List Char)
    (htok : tok ∈ goMethodTokens)
    (hact : ∀ c ∈ action, ('A' ≤ c ∧ c ≤ 'Z') ∨ ('a' ≤ c ∧ c ≤ 'z')) :
    (parseRouteFromMethodName ("Handle".data ++ (tok ++ action)) basePath).Path =
      specExpectedPath action basePath := by
  have hmain := pickMethod_token tok action htok
  simp only [parseRouteFromMethodName, trimPrefix_append, hmain,
    camelToPath_eq_specHyphenate, specExpectedPath]
  by_cases h1 : specHyphenate action = "index".data ∨ specHyphenate action = []
  · cases action with
    | nil => simp [h1]
    | cons a rest => simp [h1]
  · have hne : action ≠ [] := by
      intro h
      subst h
      exact h1 (Or.inr rfl)
    by_cases h2 : "by-id".data <:+: specHyphenate action
    · have hb : containsStr (specHyphenate action) "by-id".data = true :=
        (containsStr_iff _ _).mpr h2
      simp [h1, h2, hb, hne]
    · have hb : containsStr (specHyphenate action) "by-id".data = false :=
        Bool.eq_false_iff.mpr (fun hx => h2 ((containsStr_iff _ _).mp hx))
      simp [h1, h2, hb, hne]

/-- Witness for C1 at the concrete operation name HandleGetUserProfile and
base path "/user". -/
theorem parseRoute_path_spec_witness :
    ("Get".data ∈ goMethodTokens ∧
      (∀ c ∈ "UserProfile".data, ('A' ≤ c ∧ c ≤ 'Z') ∨ ('a' ≤ c ∧ c ≤ 'z'))) ∧
    (parseRouteFromMethodName ("Handle".data ++ ("Get".data ++ "UserProfile".data))
        "/user".data).Path =
      specExpectedPath "UserProfile".data "/user".data :=
  ⟨⟨by decide, by decide⟩,
    parseRoute_path_spec "Get".data "UserProfile".data "/user".data
      (by decide) (by decide)⟩

/-- C2 counterexample: HandleGetUserByID does not map to GET /user/:id; its
hyphenation is "user-by-i-d", which does not contain "by-id", so the claim
that both id-suffixed variants collapse to the parameterized route is false.
-/
theorem parseRoute_byID_counterexample :
    parseRouteFromMethodName "HandleGetUserByID".data "/user".data =
      ⟨"GET".data, "/user/user-by-i-d".data⟩ ∧
    parseRouteFromMethodName "HandleGetUserByID".data "/user".data ≠
      ⟨"GET".data, "/user/:id".data⟩ := by
  decide

/-- C2 amended: on base path "/user", HandleGetUserById maps to
RouteInfo{GET, "/user/:id"} while HandleGetUserByID maps to
RouteInfo{GET, "/user/user-by-i-d"}; only the "Id"-spelled variant collapses
to the parameterized route. -/
theorem parseRoute_byId_routes :
    parseRouteFromMethodName "HandleGetUserById".data "/user".data =
      ⟨"GET".data, "/user/:id".data⟩ ∧
    parseRouteFromMethodName "HandleGetUserByID".data "/user".data =
      ⟨"GET".data, "/user/user-by-i-d".data⟩ := by
  decide

/-- C3 (code bug): the handler installed by RegisterController ignores the
controller's middleware chain.  For a controller UserController with
middleware [mwSetErr] and operation HandleGetUsers = opEcho, the single
installed handler evaluated at context 0 returns (1, none) - the raw
operation's result - whereas the middleware chain around the same operation
returns (1, some 7); the two disagree. -/
theorem registerController_ignores_middleware :
    (RegisterController "UserController".data [("HandleGetUsers".data, opEcho)]
        [mwSetErr]).head?.map (fun r => (r.route, r.handler 0)) =
      some (⟨"GET".data, "/user/users".data⟩, (1, (none : Option Nat))) ∧
    buildChain [mwSetErr] opEcho 0 = (1, some 7) ∧
    ((1, (none : Option Nat)) : Nat × Option Nat) ≠ (1, some 7) := by
  decide

/-- C4: wrappers registered in order [A, B, C] produce the chain
A (B (C H)) around a terminal handler H: Use appends in order, and the
build loop of registerRoute applies wrappers in reverse registration order,
so the first-registered wrapper is outermost. -/
theorem middleware_chain_order {Ctx Err : Type}
    (A B C : MiddlewareFunc Ctx Err) (H : HandlerFunc Ctx Err) :
    Use (Use (Use [] [A]) [B]) [C] = [A, B, C] ∧
    ∀ ctx : Ctx, boundHandler [A, B, C] H ctx = A (B (C H)) ctx := by
  exact ⟨rfl, fun ctx => rfl⟩

/-- C5: for every operation name beginning with "Handle", the parser's HTTP
method is determined by scanning the remainder for the first matching token
in the fixed priority order Get, Post, Put, Delete, Patch, Options, Head,
defaulting to GET when none matches. -/
theorem parseRoute_method_priority (rest basePath : List Char) :
    (parseRouteFromMethodName ("Handle".data ++ rest) basePath).HTTPMethod =
      specHttpMethod rest := by
  rw [parse_httpMethod_eq, trimPrefix_append, pickMethod_fst_eq_find]
  rfl

/-- C6: a controller with an empty middleware sequence produces a bound
handler that behaves exactly as the raw operation: same returned error and
same effect on the context. -/
theorem zero_middleware_identity {Ctx Err : Type}
    (finalHandler : HandlerFunc Ctx Err) (ctx : Ctx) :
    boundHandler [] finalHandler ctx = finalHandler ctx := rfl

/-- C7: an enumerated method whose name does not start with "Handle" is
skipped without error: it produces no route, and the registration of the
remaining methods is unchanged. -/
theorem registerController_skips_non_handle {Ctx Err : Type}
    (controllerName : List Char)
    (pre post : List (List Char × HandlerFunc Ctx Err))
    (name : List Char) (op : HandlerFunc Ctx Err)
    (middleware : List (MiddlewareFunc Ctx Err))
    (h : ¬ "Handle".data <+: name) :
    RegisterController controllerName (pre ++ (name, op) :: post) middleware =
      RegisterController controllerName (pre ++ post) middleware := by
  have hb : "Handle".data.isPrefixOf name = false :=
    Bool.eq_false_iff.mpr (fun hx => h (List.isPrefixOf_iff_prefix.mp hx))
  simp [RegisterController, List.filterMap_append, List.filterMap_cons, hb, h]

/-- Witness for C7: the method name "SetUp" is skipped. -/
theorem registerController_skips_non_handle_witness :
    ¬ "Handle".data <+: "SetUp".data ∧
    RegisterController "UserController".data
        ([] ++ ("SetUp".data, opEcho) :: []) ([] : List (MiddlewareFunc Nat Nat)) =
      RegisterController "UserController".data ([] ++ []) [] :=
  ⟨by decide,
    registerController_skips_non_handle "UserController".data [] [] "SetUp".data
      opEcho [] (by decide)⟩

/-- C8: parseRouteFromMethodName is a pure, deterministic function: two
calls with equal method-name and base-path arguments return equal RouteInfo
values (and, being a total function in this embedding, it has no side
effects). -/
theorem parseRoute_deterministic (m₁ b₁ m₂ b₂ : List Char)
    (hm : m₁ = m₂) (hb : b₁ = b₂) :
    parseRouteFromMethodName m₁ b₁ = parseRouteFromMethodName m₂ b₂ := by
  rw [hm, hb]

/-- Witness for C8 at a concrete input. -/
theorem parseRoute_deterministic_witness :
    ("HandleGetUsers".data = "HandleGetUsers".data ∧ "/user".data = "/user".data) ∧
    parseRouteFromMethodName "HandleGetUsers".data "/user".data =
      parseRouteFromMethodName "HandleGetUsers".data "/user".data :=
  ⟨⟨rfl, rfl⟩, parseRoute_deterministic _ _ _ _ rfl rfl⟩

/-- C9: the base path is derived from the controller's type name by trimming
the "Controller" suffix, lowercasing the remainder and prefixing "/"; in
particular UserController yields "/user" and the bare name "Controller"
yields "/". -/
theorem controllerBasePath_spec :
    (∀ base : List Char,
      controllerBasePath (base ++ "Controller".data) = "/".data ++ toLowerStr base) ∧
    controllerBasePath "UserController".data = "/user".data ∧
    controllerBasePath "Controller".data = "/".data := by
  refine ⟨fun base => ?_, by decide, by decide⟩
  rw [controllerBasePath, trimSuffix_append]

/-- C10: parseRouteFromMethodName is total (a total function in this
embedding) and its path always extends the base path: the result is the base
path itself, the base path plus "/:id", or the base path plus "/" and a
non-empty segment with no ASCII uppercase letters; in every case the base
path is a prefix of the returned path. -/
theorem parseRoute_total_shape (methodName basePath : List Char) :
    ((parseRouteFromMethodName methodName basePath).Path = basePath ∨
     (parseRouteFromMethodName methodName basePath).Path = basePath ++ "/:id".data ∨
     ∃ seg : List Char, seg ≠ [] ∧ (∀ c ∈ seg, ¬('A' ≤ c ∧ c ≤ 'Z')) ∧
       (parseRouteFromMethodName methodName basePath).Path =
         basePath ++ "/".data ++ seg) ∧
    basePath <+: (parseRouteFromMethodName methodName basePath).Path := by
  have h := parse_path_cases methodName basePath
  refine ⟨h, ?_⟩
  rcases h with h | h | ⟨seg, hne, hup, h⟩ <;> rw [h]
  · exact ⟨"/:id".data, rfl⟩
  · exact ⟨"/".data ++ seg, (List.append_assoc basePath "/".data seg).symm⟩

end Forge
